import Mathlib

/-!
Verification of the prompt-lab evaluation engine against its specification.

The definitions below are a shallow embedding of the Python sources under
`server/app/` (services `llm_rate_limiter.py`, `evaluation_engine.py`,
`eval_row_task_executor.py`, `eval_task_manager.py`, `eval_task_scheduler.py`
and the models in `models/`).  Wall-clock time is modelled by rationals
(seconds), database rows by records, and effectful collaborators (LLM calls,
the JSON parser of the standard library, DB-backed cell reads) by explicit
function parameters.  Each claim theorem names the claim it settles.
-/

set_option maxHeartbeats 1000000

/-! ## Python value domain

JSON-typed fields (`config`, `value`, `vars`, ...) hold Python values.
Floats are not needed by any claim and are omitted from the domain. -/

inductive PyVal where
  | none
  | bool (b : Bool)
  | int (n : Int)
  | str (s : String)
  | list (xs : List PyVal)
  | dict (fields : List (String × PyVal))
deriving Repr

/-- Python truthiness (`if value:`). -/
def pyTruthy : PyVal → Bool
  | .none => false
  | .bool b => b
  | .int n => n != 0
  | .str s => s != ""
  | .list xs => !xs.isEmpty
  | .dict fs => !fs.isEmpty

/-- Python `value == 0` (numeric zero; `False == 0` holds in Python). -/
def pyEqZero : PyVal → Bool
  | .int n => n == 0
  | .bool b => !b
  | _ => false

def pyIsNone : PyVal → Bool
  | .none => true
  | _ => false

mutual
/-- Python `repr` of a value (used by `str` on containers). -/
def pyRepr : PyVal → String
  | .none => "None"
  | .bool true => "True"
  | .bool false => "False"
  | .int n => toString n
  | .str s => "\x27" ++ s ++ "\x27"
  | .list xs => "[" ++ pyReprList xs ++ "]"
  | .dict fs => "\x7b" ++ pyReprFields fs ++ "\x7d"

def pyReprList : List PyVal → String
  | [] => ""
  | [x] => pyRepr x
  | x :: xs => pyRepr x ++ ", " ++ pyReprList xs

def pyReprFields : List (String × PyVal) → String
  | [] => ""
  | [(k, v)] => "\x27" ++ k ++ "\x27: " ++ pyRepr v
  | (k, v) :: fs => "\x27" ++ k ++ "\x27: " ++ pyRepr v ++ ", " ++ pyReprFields fs
end

/-- Python `str(value)`. -/
def pyStr : PyVal → String
  | .str s => s
  | v => pyRepr v

/-- Python string whitespace (`str.strip`, regex `\s`). -/
def pyIsSpace (c : Char) : Bool :=
  c == ' ' || c == '\t' || c == '\n' || c == '\r' || c == '\x0b' || c == '\x0c'

/-- Python `str.strip()`. -/
def pyStrip (s : String) : String :=
  String.mk (((s.data.dropWhile pyIsSpace).reverse.dropWhile pyIsSpace).reverse)

/-- Python `str.lower()` (ASCII model). -/
def pyLower (s : String) : String :=
  String.mk (s.data.map Char.toLower)

/-- Collapse each maximal whitespace run into one space; the flag records
whether the previous character was part of a whitespace run. -/
def collapseSpacesAux : List Char → Bool → List Char
  | [], _ => []
  | c :: cs, prev =>
    if pyIsSpace c then
      if prev then collapseSpacesAux cs true else ' ' :: collapseSpacesAux cs true
    else c :: collapseSpacesAux cs false

/-- Python `re.sub(r'\s+', ' ', s)`. -/
def pySubSpaces (s : String) : String :=
  String.mk (collapseSpacesAux s.data false)

/-! ## Dictionaries

Python dicts are modelled as association lists with replace-on-update. -/

abbrev Details := List (String × PyVal)

/-- `d[k] = v` on a dict. -/
def dictSet (d : Details) (k : String) (v : PyVal) : Details :=
  if d.any (fun kv => kv.1 == k) then
    d.map (fun kv => if kv.1 == k then (k, v) else kv)
  else d ++ [(k, v)]

/-- Python `dict.update`. -/
def dictUpdate (d upd : Details) : Details :=
  upd.foldl (fun acc kv => dictSet acc kv.1 kv.2) d

/-- Python `dict.get(k, default)`. -/
def varGet (vars : List (String × PyVal)) (k : String) (dflt : PyVal) : PyVal :=
  match vars.lookup k with
  | some v => v
  | Option.none => dflt

abbrev Vars := List (String × PyVal)

/-! ## LLM rate limiter (`services/llm_rate_limiter.py`)

Timestamps are rationals (seconds).  `acquire` is modelled as a state
transformer; the sleep advances the clock by the computed wait plus a
nonnegative overshoot `d` (a real `asyncio.sleep` never resumes early).
The `IndexError` raised by `second_window[0]` / `minute_window[0]` on an
empty deque is modelled by `Except.error`. -/

structure LLMRateLimiter where
  qps : ℚ
  qpm : ℚ
  second_window : List ℚ
  minute_window : List ℚ

/-- `LLMRateLimiter.__init__`: empty windows. -/
def initRateLimiter (qps qpm : ℚ) : LLMRateLimiter :=
  { qps := qps, qpm := qpm, second_window := [], minute_window := [] }

/-- The `while window and current_time - window[0] > w: window.popleft()` loop
of `_cleanup_windows`, on one window of width `w`. -/
def dropExpired (w t : ℚ) : List ℚ → List ℚ
  | [] => []
  | x :: xs => if t - x > w then dropExpired w t xs else x :: xs

/-- `_cleanup_windows`: drop expired entries from both windows. -/
def cleanupWindows (st : LLMRateLimiter) (t : ℚ) : LLMRateLimiter :=
  { st with
    second_window := dropExpired 1 t st.second_window,
    minute_window := dropExpired 60 t st.minute_window }

/-- One capacity check of `_calculate_wait_time`: if the window is at
capacity, the wait until its oldest entry expires (when positive).
`window[0]` on an empty deque is an `IndexError`. -/
def windowWaitTime (cap w t : ℚ) (window : List ℚ) : Except Unit (Option ℚ) :=
  if (window.length : ℚ) ≥ cap then
    match window with
    | [] => .error ()
    | oldest :: _ =>
      if w - (t - oldest) > 0 then .ok (some (w - (t - oldest))) else .ok Option.none
  else .ok Option.none

/-- `_calculate_wait_time`: the maximum of the positive candidate waits,
`0.0` if neither window is at capacity. -/
def calculateWaitTime (st : LLMRateLimiter) (t : ℚ) : Except Unit ℚ :=
  match windowWaitTime st.qps 1 t st.second_window with
  | .error e => .error e
  | .ok w1 =>
    match windowWaitTime st.qpm 60 t st.minute_window with
    | .error e => .error e
    | .ok w2 => .ok (max (w1.getD 0) (w2.getD 0))

/-- `acquire()`: clean both windows at the call time `t`; compute the wait;
if positive, sleep (the clock moves to `t + wait + d` with `d ≥ 0`) and clean
again; finally record the current timestamp in both windows.  Returns the
admission timestamp and the new state. -/
def acquire (st : LLMRateLimiter) (t d : ℚ) : Except Unit (ℚ × LLMRateLimiter) :=
  let st1 := cleanupWindows st t
  match calculateWaitTime st1 t with
  | .error e => .error e
  | .ok w =>
    if w > 0 then
      let t1 := t + w + d
      let st2 := cleanupWindows st1 t1
      .ok (t1, { st2 with
        second_window := st2.second_window ++ [t1],
        minute_window := st2.minute_window ++ [t1] })
    else
      .ok (t, { st1 with
        second_window := st1.second_window ++ [t],
        minute_window := st1.minute_window ++ [t] })

/-- Run a sequence of `acquire` calls; each schedule entry is the wall-clock
call time paired with the sleep overshoot.  Returns the admission timestamps
in order. -/
def runAcquires (st : LLMRateLimiter) : List (ℚ × ℚ) → Except Unit (List ℚ × LLMRateLimiter)
  | [] => .ok ([], st)
  | (t, d) :: rest =>
    match acquire st t d with
    | .error e => .error e
    | .ok (a, st1) =>
      match runAcquires st1 rest with
      | .error e => .error e
      | .ok (as, stf) => .ok (a :: as, stf)

/-- A schedule is valid after `last` when each call time strictly exceeds the
previous admission timestamp (the caller reads the clock after the previous
`acquire` returned) and each sleep overshoot is nonnegative. -/
def ValidSched (st : LLMRateLimiter) (last : ℚ) : List (ℚ × ℚ) → Prop
  | [] => True
  | (t, d) :: rest =>
    last < t ∧ 0 ≤ d ∧
      ∀ a st1, acquire st t d = .ok (a, st1) → ValidSched st1 a rest

/-- At most `cap - 1` admissions of `T` fall strictly inside the open window
of width `w` after any admission `x`.  This is the inductive core of the
sliding-window guarantee: it implies that every half-open window `(a, a + w]`
holds at most `cap` admissions. -/
def localWindowBound (w : ℚ) (cap : ℕ) (T : List ℚ) : Prop :=
  ∀ x ∈ T, (T.filter (fun s => decide (x < s ∧ s < x + w))).length < cap

/-- The limiter invariant relating the state after an `acquire` to the full
chronological list `T` of admission timestamps, `last` being the latest
admission (or the initial clock when `T` is empty). -/
structure RateLimiterInv (C M : ℕ) (T : List ℚ) (st : LLMRateLimiter) (last : ℚ) : Prop where
  qps_eq : st.qps = (C : ℚ)
  qpm_eq : st.qpm = (M : ℚ)
  sorted : T.Sorted (· < ·)
  bounded : ∀ s ∈ T, s ≤ last
  winS : st.second_window = T.filter (fun s => decide (last - s ≤ 1))
  winM : st.minute_window = T.filter (fun s => decide (last - s ≤ 60))
  localS : localWindowBound 1 C T
  localM : localWindowBound 60 M T

/-! ## Evaluation predicate library (`services/evaluation_engine.py`) -/

/-- One entry of `config["match_pairs"]` for `exact_multi_match`.
Fields are optional exactly where the source reads them with `pair.get`. -/
structure MatchPair where
  input_column : Option String := Option.none
  expected_value_type : Option String := Option.none
  expected_column : Option String := Option.none
  fixed_expected_value : Option PyVal := Option.none
  enable_input_json_extraction : Bool := false
  input_json_path : Option String := Option.none
  enable_expected_json_extraction : Bool := false
  expected_json_path : Option String := Option.none

/-- The strategy `config` dict, with the keys the embedded strategies read. -/
structure EvalConfig where
  ignore_case : Bool := false
  ignore_whitespace : Bool := false
  options : List String := []
  match_pairs : List MatchPair := []
  vars : Vars := []
  values : Option (List PyVal) := Option.none

/-- `_eval_exact_match`: strip, optionally lowercase, optionally collapse
whitespace, compare. -/
def eval_exact_match (output expected_output : String) (config : EvalConfig) :
    Bool × Details :=
  let output_clean := pyStrip output
  let expected_clean := pyStrip expected_output
  let ignore_case := config.ignore_case
  let output_clean := if ignore_case then pyLower output_clean else output_clean
  let expected_clean := if ignore_case then pyLower expected_clean else expected_clean
  let ignore_whitespace := config.ignore_whitespace
  let output_clean := if ignore_whitespace then pySubSpaces output_clean else output_clean
  let expected_clean := if ignore_whitespace then pySubSpaces expected_clean else expected_clean
  let passed := output_clean == expected_clean
  (passed,
    [("config", .dict [("ignore_case", .bool ignore_case),
                       ("ignore_whitespace", .bool ignore_whitespace)])])

/-- Prefix match of `re.match(r'(\w+)\[(\d+)\]', part)`: a nonempty run of
word characters, a bracketed nonempty digit run; trailing characters are
ignored, as `re.match` only anchors at the start. -/
def isWordChar (c : Char) : Bool := c.isAlphanum || c == '_'

def digitsToNat (ds : List Char) : Nat :=
  ds.foldl (fun n c => n * 10 + (c.toNat - '0'.toNat)) 0

def parseArrayAccess (part : String) : Option (String × Nat) :=
  let cs := part.data
  let key := cs.takeWhile isWordChar
  let rest := cs.dropWhile isWordChar
  if key.isEmpty then Option.none
  else
    match rest with
    | '[' :: rest1 =>
      let digits := rest1.takeWhile Char.isDigit
      let rest2 := rest1.dropWhile Char.isDigit
      if digits.isEmpty then Option.none
      else
        match rest2 with
        | ']' :: _ => some (String.mk key, digitsToNat digits)
        | _ => Option.none
    | _ => Option.none

/-- Python `key in value` for the values reachable here: dict key lookup,
list membership, substring test on strings; `in` on scalars raises
`TypeError`. -/
def pyContains (key : String) : PyVal → Except String Bool
  | .dict fs => .ok (fs.any (fun kv => kv.1 == key))
  | .list xs => .ok (xs.any (fun x => match x with
      | .str s => s == key
      | _ => false))
  | .str s => .ok (decide (key.data <:+: s.data))
  | _ => .error "TypeError: argument not iterable"

/-- Python `value[key]` with a string key: only dicts succeed; indexing a
list or a string with a string raises `TypeError`. -/
def pyIndexStr (v : PyVal) (key : String) : Except String PyVal :=
  match v with
  | .dict fs =>
    match fs.lookup key with
    | some x => .ok x
    | Option.none => .error "KeyError"
  | _ => .error "TypeError: invalid index type"

/-- The per-segment walk of `_extract_from_json_path`; `.ok .none` models the
`return None` sentinel, `.error` a raised exception. -/
def jsonPathWalk : List String → PyVal → Except String PyVal
  | [], current => .ok current
  | part :: rest, current =>
    match parseArrayAccess part with
    | some (key, index) =>
      match pyContains key current with
      | .error e => .error e
      | .ok false => .ok .none
      | .ok true =>
        match pyIndexStr current key with
        | .error e => .error e
        | .ok array_data =>
          match array_data with
          | .list xs =>
            if h : index < xs.length then jsonPathWalk rest (xs.get ⟨index, h⟩)
            else .ok .none
          | _ => .ok .none
    | Option.none =>
      match pyContains part current with
      | .error e => .error e
      | .ok false => .ok .none
      | .ok true =>
        match pyIndexStr current part with
        | .error e => .error e
        | .ok v => jsonPathWalk rest v

/-- `_extract_from_json_path`. -/
def extract_from_json_path (json_obj : PyVal) (json_path : String) :
    Except String PyVal :=
  if json_path == "" then .ok json_obj
  else jsonPathWalk (json_path.splitOn ".") json_obj

/-- Outcome of one `match_pairs` entry inside `_eval_exact_multi_match`.
The constructors follow the `continue` branches of the loop. -/
inductive PairOutcome where
  | config_error (msg : String)
  | input_json_error (msg : String)
  | expected_json_error (msg : String)
  | compared (passed : Bool) (input_processed expected_processed : String)

/-- A pair counts as passed only when it reached the comparison and matched. -/
def PairOutcome.pairPassed : PairOutcome → Bool
  | .compared true _ _ => true
  | _ => false

/-- The optional JSON extraction applied to one side of a pair:
`json.loads(str(v))` when the value is a string (otherwise the value is used
as already-parsed JSON), then the path walk.  `jsonLoads` is the standard
library parser, taken as a parameter. -/
def resolveWithExtraction (jsonLoads : String → Except String PyVal)
    (enabled : Bool) (path : String) (v : PyVal) : Except String PyVal :=
  if enabled && path != "" then
    match (match v with | .str s => jsonLoads s | other => .ok other) with
    | .error e => .error e
    | .ok j => extract_from_json_path j path
  else .ok v

/-- The expected-side resolution of one pair: a configured fixed value
(`0` and `False` count as configured) or a column looked up in the variable
environment. -/
def resolveExpectedValue (vars : Vars) (pair : MatchPair) : Except String PyVal :=
  let expected_value_type := pair.expected_value_type.getD "column"
  if expected_value_type == "fixed_value" then
    let ev := pair.fixed_expected_value.getD (.str "")
    if !pyTruthy ev && !pyEqZero ev then .error "固定期望值未配置"
    else .ok ev
  else
    let ec := pair.expected_column.getD ""
    if ec == "" then .error "期望列配置错误"
    else .ok (varGet vars ec (.str ""))

/-- The body of the `for i, pair in enumerate(match_pairs)` loop of
`_eval_exact_multi_match`, for one pair. -/
def evalPair (jsonLoads : String → Except String PyVal) (vars : Vars)
    (ignore_case ignore_whitespace none_as_empty : Bool) (pair : MatchPair) :
    PairOutcome :=
  let input_column := pair.input_column.getD ""
  if input_column == "" then .config_error "输入列配置错误"
  else
    let input_value := varGet vars input_column (.str "")
    let expected_value_type := pair.expected_value_type.getD "column"
    match resolveExpectedValue vars pair with
    | .error m => .config_error m
    | .ok expected_value =>
      match resolveWithExtraction jsonLoads pair.enable_input_json_extraction
          (pair.input_json_path.getD "") input_value with
      | .error e => .input_json_error e
      | .ok input_value1 =>
        match resolveWithExtraction jsonLoads
            (expected_value_type == "column" && pair.enable_expected_json_extraction)
            (pair.expected_json_path.getD "") expected_value with
        | .error e => .expected_json_error e
        | .ok expected_value1 =>
          let input_value2 :=
            if none_as_empty && pyIsNone input_value1 then .str "" else input_value1
          let expected_value2 :=
            if none_as_empty && pyIsNone expected_value1 then .str "" else expected_value1
          let input_str := pyStrip (pyStr input_value2)
          let expected_str := pyStrip (pyStr expected_value2)
          let input_str := if ignore_case then pyLower input_str else input_str
          let expected_str := if ignore_case then pyLower expected_str else expected_str
          let input_str := if ignore_whitespace then pySubSpaces input_str else input_str
          let expected_str := if ignore_whitespace then pySubSpaces expected_str else expected_str
          .compared (input_str == expected_str) input_str expected_str

/-- `_eval_exact_multi_match`.  The loop accumulators (`all_passed`,
`passed_count`, `failed_pairs`) are recovered from the per-pair outcomes. -/
def eval_exact_multi_match (jsonLoads : String → Except String PyVal)
    (_output _expected_output : String) (config : EvalConfig) : Bool × Details :=
  let match_pairs := config.match_pairs
  if match_pairs.isEmpty then (false, [("error", .str "未配置匹配对")])
  else
    let options := config.options
    let ignore_case := options.contains "ignore_case"
    let ignore_whitespace := options.contains "ignore_whitespace"
    let none_as_empty := options.contains "none_as_empty"
    let vars := config.vars
    let outcomes := match_pairs.map
      (evalPair jsonLoads vars ignore_case ignore_whitespace none_as_empty)
    let all_passed := outcomes.all PairOutcome.pairPassed
    let passed_count := (outcomes.filter PairOutcome.pairPassed).length
    let failed_pairs : List PyVal := (outcomes.enum.filterMap (fun io =>
      match io.2 with
      | .config_error m => some (PyVal.str ("匹配对 " ++ toString (io.1 + 1) ++ ": " ++ m))
      | .input_json_error _ => some (.str ("匹配对 " ++ toString (io.1 + 1) ++ ": 输入值JSON解析失败"))
      | .expected_json_error _ => some (.str ("匹配对 " ++ toString (io.1 + 1) ++ ": 期望值JSON解析失败"))
      | .compared true _ _ => Option.none
      | .compared false i e => some (.str ("匹配对 " ++ toString (io.1 + 1) ++ ": 期望" ++ e ++ "，实际" ++ i))))
    (all_passed,
      [("total_pairs", .int match_pairs.length),
       ("passed_pairs", .int passed_count),
       ("failed_pairs", .list failed_pairs),
       ("config", .dict [("ignore_case", .bool ignore_case),
                         ("ignore_whitespace", .bool ignore_whitespace)])])

/-- `_eval_coalesce`, with the `config` state made explicit: `values` is the
list object behind `config["values"]`; `insert(0, ...)` mutates it in place,
so the updated config is returned alongside the result.  When the key is
absent, `config.get("values", [])` yields a fresh list and the config is not
written back. -/
def eval_coalesce (output expected_output : String) (config : EvalConfig) :
    (Bool × Details) × EvalConfig :=
  let values0 := config.values.getD []
  let values1 := if output != "" then PyVal.str output :: values0 else values0
  let values2 := if expected_output != "" then PyVal.str expected_output :: values1 else values1
  let coalesced_value :=
    match values2.find? (fun v => !pyIsNone v && !(pyStr v == "" && (match v with | .str _ => true | _ => false))) with
    | some v => some v
    | Option.none => Option.none
  let config1 :=
    match config.values with
    | some _ => { config with values := some values2 }
    | Option.none => config
  ((true, [("coalesced_value", coalesced_value.getD .none), ("values", .list values2)]), config1)

/-- The strategies the engine delegates to effectful collaborators (LLM,
embeddings, regex/JSON parsing of the standard library); their result is a
parameter of the embedding. -/
structure EngineOracles where
  eval_contains : String → String → EvalConfig → Bool × Details
  eval_keywords : String → String → EvalConfig → Bool × Details
  eval_json_structure : String → String → EvalConfig → Bool × Details
  eval_regex : String → String → EvalConfig → Bool × Details
  eval_numeric_distance : String → String → EvalConfig → Bool × Details
  eval_llm_assertion : String → String → EvalConfig → Bool × Details
  eval_cosine_similarity : String → String → EvalConfig → Bool × Details
  eval_json_extraction : String → String → EvalConfig → Bool × Details
  eval_parse_value : String → String → EvalConfig → Bool × Details
  eval_static_value : String → String → EvalConfig → Bool × Details
  eval_type_validation : String → String → EvalConfig → Bool × Details
  eval_count : String → String → EvalConfig → Bool × Details

/-- The `self.eval_strategies` dict built in `EvaluationEngine.__init__`. -/
def eval_strategies (E : EngineOracles) (jsonLoads : String → Except String PyVal) :
    List (String × (String → String → EvalConfig → Bool × Details)) :=
  [("exact", eval_exact_match),
   ("exact_multi_match", eval_exact_multi_match jsonLoads),
   ("contains", E.eval_contains),
   ("keywords", E.eval_keywords),
   ("json_structure", E.eval_json_structure),
   ("regex", E.eval_regex),
   ("numeric_distance", E.eval_numeric_distance),
   ("llm_assertion", E.eval_llm_assertion),
   ("cosine_similarity", E.eval_cosine_similarity),
   ("json_extraction", E.eval_json_extraction),
   ("parse_value", E.eval_parse_value),
   ("static_value", E.eval_static_value),
   ("type_validation", E.eval_type_validation),
   ("coalesce", fun o e c => (eval_coalesce o e c).1),
   ("count", E.eval_count)]

/-- The registered strategy names (the keys of `self.eval_strategies`). -/
def registeredStrategyNames : List String :=
  ["exact", "exact_multi_match", "contains", "keywords", "json_structure",
   "regex", "numeric_distance", "llm_assertion", "cosine_similarity",
   "json_extraction", "parse_value", "static_value", "type_validation",
   "coalesce", "count"]

/-- `evaluate_output`: `self.eval_strategies.get(strategy, self._eval_exact_match)`,
then the detail merge. -/
def evaluate_output (E : EngineOracles) (jsonLoads : String → Except String PyVal)
    (output expected_output strategy : String) (config : EvalConfig) :
    Bool × Details :=
  let evaluation_details : Details :=
    [("strategy", .str strategy), ("output", .str output),
     ("expected_output", .str expected_output)]
  let eval_func :=
    match (eval_strategies E jsonLoads).lookup strategy with
    | some f => f
    | Option.none => eval_exact_match
  let result := eval_func output expected_output config
  let evaluation_details := dictUpdate evaluation_details result.2
  let evaluation_details := dictSet evaluation_details "match" (.bool result.1)
  (result.1, evaluation_details)

/-! ## Row-task executor (`services/eval_row_task_executor.py`) -/

inductive RowTaskStatus where
  | pending | running | completed | failed
deriving DecidableEq, Repr

inductive RowTaskResult where
  | passed | unpassed | failed
deriving DecidableEq, Repr

structure EvalColumn where
  name : String
  column_type : String
  position : Int

/-- The dict returned by `_execute_column_for_row`: `success`, plus `value`
when present (`column_result.get("value")` is `None` when absent). -/
structure ColumnExecResult where
  success : Bool
  value : Option PyVal := Option.none
  error : Option String := Option.none

/-- The terminal write performed on the row task by
`_update_row_task_completed` / `_update_row_task_failed`.
`execution_variables` is persisted only on the completed path. -/
structure RowExecOutcome where
  status : RowTaskStatus
  row_result : Option RowTaskResult
  execution_variables : Option Vars
  error_message : Option String

/-- The boolean column types tested by the verdict branch of
`_execute_single_row_task` (line 181 of the source). -/
def boolColumnTypes : List String :=
  ["exact_match", "exact_multi_match", "contains", "regex"]

/-- Python truthiness of `execution_variables.get(name)` (`None` when absent). -/
def pyTruthyOpt : Option PyVal → Bool
  | some v => pyTruthy v
  | Option.none => false

/-- The `for column in columns` loop of `_execute_single_row_task`: run each
column through the dispatcher `execCol` (`_execute_column_for_row`, whose
engine and DB effects are a parameter), merging each produced value into
`execution_variables`; a failing column aborts the row. -/
def rowLoop (execCol : EvalColumn → Vars → ColumnExecResult) :
    Vars → List EvalColumn → Except (String × Vars) Vars
  | vars, [] => .ok vars
  | vars, column :: rest =>
    let r := execCol column vars
    if r.success then
      let vars1 := match r.value with
        | some v => dictSet vars column.name v
        | Option.none => vars
      rowLoop execCol vars1 rest
    else .error (r.error.getD ("列 " ++ column.name ++ " 执行失败"), vars)

/-- `_execute_single_row_task` (lines 140-209): initialise the vars from
the dataset item, run the columns in order, then decide the row verdict from
the last column.  `columns[-1]` on an empty list raises `IndexError`, which
the enclosing handler turns into a failed row. -/
def execute_single_row_task (execCol : EvalColumn → Vars → ColumnExecResult)
    (initial_variables : Vars) (columns : List EvalColumn) : RowExecOutcome :=
  match columns with
  | [] =>
    { status := .failed, row_result := some .failed,
      execution_variables := Option.none,
      error_message := some "list index out of range" }
  | c :: rest =>
    match rowLoop execCol initial_variables (c :: rest) with
    | .error (msg, _) =>
      { status := .failed, row_result := some .failed,
        execution_variables := Option.none, error_message := some msg }
    | .ok execution_variables =>
      let last_column := (c :: rest).getLast (List.cons_ne_nil c rest)
      if boolColumnTypes.contains last_column.column_type then
        let last_value := execution_variables.lookup last_column.name
        let row_result :=
          if pyTruthyOpt last_value then RowTaskResult.passed else RowTaskResult.unpassed
        { status := .completed, row_result := some row_result,
          execution_variables := some execution_variables, error_message := Option.none }
      else
        { status := .completed, row_result := some .passed,
          execution_variables := some execution_variables, error_message := Option.none }

/-! ## Row-task rows, result statistics, and the timeout sweep
(`models/eval_result_row_task.py`, `_update_eval_result_stats`,
`eval_task_scheduler._cleanup_timeout_row_tasks`) -/

/-- A persisted `eval_result_row_tasks` row.  Times are seconds. -/
structure EvalResultRowTaskRec where
  status : RowTaskStatus
  row_result : Option RowTaskResult
  started_at : Option ℚ
  updated_at : ℚ
  completed_at : Option ℚ := Option.none
  error_message : Option String := Option.none

/-- The model property `is_finished`. -/
def rowTaskIsFinished (t : EvalResultRowTaskRec) : Bool :=
  t.status == .completed || t.status == .failed

/-- The fields written to `eval_results` by `_update_eval_result_stats`.
The source stores `round(success_rate, 2)`; the rounding is display-only and
is left out of the field. -/
structure EvalResultStats where
  status : String
  total_count : ℕ
  passed_count : ℕ
  unpassed_count : ℕ
  failed_count : ℕ
  success_rate : ℚ

/-- `_update_eval_result_stats` (lines 513-552): bucket the row tasks by
`row_result`, mark the result `completed` when every row task is finished. -/
def update_eval_result_stats (row_tasks : List EvalResultRowTaskRec) : EvalResultStats :=
  let total_count := row_tasks.length
  let passed_count := (row_tasks.filter (fun t => t.row_result == some .passed)).length
  let unpassed_count := (row_tasks.filter (fun t => t.row_result == some .unpassed)).length
  let failed_count := (row_tasks.filter (fun t => t.row_result == some .failed)).length
  let completed_count := passed_count + unpassed_count
  let success_rate := if total_count > 0 then (completed_count : ℚ) / (total_count : ℚ) else 0
  let all_finished := row_tasks.all rowTaskIsFinished
  { status := if all_finished then "completed" else "running",
    total_count := total_count, passed_count := passed_count,
    unpassed_count := unpassed_count, failed_count := failed_count,
    success_rate := success_rate }

/-- `EvalTaskScheduler._update_row_task_status`: set `status` and
`updated_at`, merge the extra fields.  `row_result` is not among the
written fields. -/
def scheduler_update_row_task_status (t : EvalResultRowTaskRec) (now : ℚ)
    (status : RowTaskStatus) (completed_at : Option ℚ)
    (error_message : Option String) : EvalResultRowTaskRec :=
  { t with
    status := status,
    updated_at := now,
    completed_at := match completed_at with
      | some c => some c
      | Option.none => t.completed_at,
    error_message := match error_message with
      | some m => some m
      | Option.none => t.error_message }

/-- `_is_row_task_really_interrupted`: `updated_at` older than five minutes. -/
def isRowTaskReallyInterrupted (now : ℚ) (t : EvalResultRowTaskRec) : Bool :=
  decide (t.updated_at < now - 5 * 60)

/-- `_cleanup_timeout_row_tasks` (lines 677-707): running row tasks started
before the cutoff and really interrupted are marked `failed` with a timeout
error; `row_result` is left untouched. -/
def cleanup_timeout_row_tasks (now timeout_minutes : ℚ)
    (row_tasks : List EvalResultRowTaskRec) : List EvalResultRowTaskRec :=
  let cutoff_time := now - timeout_minutes * 60
  row_tasks.map (fun t =>
    if t.status == .running
        && (match t.started_at with
            | some s => decide (s < cutoff_time)
            | Option.none => false)
        && isRowTaskReallyInterrupted now t then
      scheduler_update_row_task_status t now .failed (some now) (some "任务执行超时")
    else t)

/-! ## Task manager (`services/eval_task_manager.py`, `models/eval_task.py`) -/

inductive TaskStatus where
  | pending | running | paused | completed | failed | cancelled | retrying
deriving DecidableEq, Repr

/-- The `eval_tasks` columns `retry_task` reads and writes. -/
structure EvalTaskRec where
  status : TaskStatus
  max_retries : ℕ
  current_retry : ℕ
  next_retry_at : Option ℚ := Option.none
  error_message : Option String := Option.none

/-- The model property `can_retry`. -/
def evalTaskCanRetry (t : EvalTaskRec) : Bool :=
  t.status == .failed && t.current_retry < t.max_retries

/-- The default `retry_delays` configuration (`core/eval_config.py`). -/
def defaultRetryDelays : List ℚ := [0, 30, 120, 300]

/-- `_calculate_next_retry_time`: `delays[min(retry_count, len(delays)-1)]`
added to the clock; `Option.none` models the `IndexError` on an empty table. -/
def calculate_next_retry_time (retry_delays : List ℚ) (now : ℚ)
    (retry_count : ℕ) : Option ℚ :=
  let delay_index := min retry_count (retry_delays.length - 1)
  (retry_delays.get? delay_index).map (fun d => now + d)

/-- `retry_task` (lines 270-297): refuse unless `can_retry`; otherwise move to
`retrying`, bump `current_retry`, set `next_retry_at`, clear the error. -/
def retry_task (retry_delays : List ℚ) (now : ℚ) (task : EvalTaskRec) :
    Bool × EvalTaskRec :=
  if !evalTaskCanRetry task then (false, task)
  else
    match calculate_next_retry_time retry_delays now task.current_retry with
    | Option.none => (false, task)
    | some next_retry_at =>
      (true,
        { task with
          status := .retrying,
          current_retry := task.current_retry + 1,
          next_retry_at := some next_retry_at,
          error_message := Option.none })

/-! ## Scheduler force-schedule hook
(`eval_task_scheduler.force_schedule_row_task_batch`, lines 738-782) -/

/-- The in-memory scheduler state: the `self._active_tasks` key set. -/
structure SchedulerState where
  active_tasks : Finset String

/-- `force_schedule_row_task_batch`: refuse when no slot is free or the
`row_batch:<result_id>` key is already active; otherwise add the key and
spawn the batch worker.  The third component is the spawned worker key
(`Option.none` when nothing was spawned). -/
def force_schedule_row_task_batch (max_concurrent_tasks : ℕ)
    (st : SchedulerState) (result_id : ℤ) :
    Bool × SchedulerState × Option String :=
  if st.active_tasks.card ≥ max_concurrent_tasks then (false, st, Option.none)
  else
    let task_key := "row_batch:" ++ toString result_id
    if task_key ∈ st.active_tasks then (false, st, Option.none)
    else (true, { active_tasks := insert task_key st.active_tasks }, some task_key)

/-! ## Concrete fixtures used by witnesses -/

/-- A JSON parser oracle that rejects every document. -/
def trivialJsonLoads : String → Except String PyVal := fun _ => .error "unsupported"

/-- Oracles for the strategies no claim inspects. -/
def trivialOracles : EngineOracles :=
  let f : String → String → EvalConfig → Bool × Details := fun _ _ _ => (false, [])
  ⟨f, f, f, f, f, f, f, f, f, f, f, f⟩

/-- The `match_pairs` loop applied to one pair with the options and variable
environment read from `config`, exactly as `_eval_exact_multi_match` does. -/
def pairOutcomeOf (jsonLoads : String → Except String PyVal) (config : EvalConfig)
    (pair : MatchPair) : PairOutcome :=
  evalPair jsonLoads config.vars (config.options.contains "ignore_case")
    (config.options.contains "ignore_whitespace")
    (config.options.contains "none_as_empty") pair

/-- A column dispatcher for the row-executor witness: the `exact_match`
column evaluates to `True`, every other column succeeds without a value. -/
def execColW : EvalColumn → Vars → ColumnExecResult := fun col _ =>
  if col.column_type == "exact_match" then
    { success := true, value := some (.bool true) }
  else { success := true }

/-- A two-column pipeline ending in an `exact_match` column. -/
def columnsW : List EvalColumn :=
  [⟨"q", "dataset_variable", 0⟩, ⟨"verdict", "exact_match", 1⟩]

/-- A single fixed-value match pair for the `exact_multi_match` witness. -/
def pairW : MatchPair :=
  { input_column := some "q", expected_value_type := some "fixed_value",
    fixed_expected_value := some (.str "hi") }

/-- An `exact_multi_match` config whose one pair matches. -/
def multiConfigW : EvalConfig :=
  { match_pairs := [pairW], vars := [("q", PyVal.str "hi")] }

/-- C6: retrying a column task increments `current_retry` by exactly one,
refuses once the counter has reached `max_retries` (the task is left
untouched), and sets `next_retry_at` to the clock plus
`delays[min(current_retry, len(delays)-1)]`. -/
theorem retry_task_spec (retry_delays : List ℚ) (now : ℚ) (task : EvalTaskRec)
    (hdelays : retry_delays ≠ []) :
    (task.max_retries ≤ task.current_retry →
      retry_task retry_delays now task = (false, task)) ∧
    (evalTaskCanRetry task = true →
      ∃ d, retry_delays.get? (min task.current_retry (retry_delays.length - 1)) = some d ∧
        retry_task retry_delays now task =
          (true, ⟨TaskStatus.retrying, task.max_retries, task.current_retry + 1,
                  some (now + d), Option.none⟩)) := by
  constructor
  · intro hmax
    have hnot : ¬ (task.current_retry < task.max_retries) := Nat.not_lt.mpr hmax
    have hcan : evalTaskCanRetry task = false := by
      unfold evalTaskCanRetry
      simp [hnot]
    simp [retry_task, hcan]
  · intro hcan
    have hlen : 0 < retry_delays.length := List.length_pos.mpr hdelays
    have hidx : min task.current_retry (retry_delays.length - 1) < retry_delays.length := by
      omega
    refine ⟨retry_delays.get ⟨_, hidx⟩, List.get?_eq_get hidx, ?_⟩
    simp [retry_task, hcan, calculate_next_retry_time, List.get?_eq_get hidx,
      List.getElem?_eq_getElem hidx]

/-- Witness for `retry_task_spec` at a concrete failed task with one retry
used out of three. -/
theorem retry_task_spec_witness :
    defaultRetryDelays ≠ [] ∧
    (retry_task defaultRetryDelays 100 ⟨TaskStatus.failed, 3, 1, Option.none, some "x"⟩).2.current_retry = 2 ∧
    (retry_task defaultRetryDelays 100 ⟨TaskStatus.failed, 3, 1, Option.none, some "x"⟩).2.next_retry_at = some 130 := by
  have hne : defaultRetryDelays ≠ [] := by simp [defaultRetryDelays]
  obtain ⟨d, hd, heq⟩ :=
    (retry_task_spec defaultRetryDelays 100 ⟨TaskStatus.failed, 3, 1, Option.none, some "x"⟩ hne).2
      (by decide)
  have hdv : d = 30 := by
    simpa [defaultRetryDelays] using hd.symm
  refine ⟨hne, ?_, ?_⟩
  · rw [heq]
  · rw [heq, hdv]
    norm_num

/-- C7 (amended): with `qps = 0`, `acquire` never admits a request; every call
on a freshly constructed limiter raises `IndexError` immediately (the capacity
check fires on the empty window and `second_window[0]` fails), rather than
blocking forever. -/
theorem qps_zero_acquire_raises (qpm t d : ℚ) :
    acquire (initRateLimiter 0 qpm) t d = .error () := by
  simp [acquire, initRateLimiter, cleanupWindows, dropExpired, calculateWaitTime,
    windowWaitTime]

/-- C7 counterexample: the very first `acquire` on a `qps = 0` limiter returns
(with an error) immediately instead of never returning. -/
theorem qps_zero_acquire_counterexample :
    acquire (initRateLimiter 0 60) 0 0 = .error () := by rfl

/-- C8: force-scheduling a row batch whose `row_batch:<result_id>` key is
already in the active set returns `False`, spawns no worker and leaves the
active set unchanged. -/
theorem force_schedule_row_task_batch_noop (max_concurrent_tasks : ℕ)
    (st : SchedulerState) (result_id : ℤ)
    (h : "row_batch:" ++ toString result_id ∈ st.active_tasks) :
    force_schedule_row_task_batch max_concurrent_tasks st result_id
      = (false, st, Option.none) := by
  unfold force_schedule_row_task_batch
  split
  · rfl
  · simp [h]

/-- Witness for `force_schedule_row_task_batch_noop` at a concrete state. -/
theorem force_schedule_row_task_batch_noop_witness :
    ("row_batch:" ++ toString (7:ℤ)) ∈ ({"row_batch:7"} : Finset String) ∧
    force_schedule_row_task_batch 5 ⟨{"row_batch:7"}⟩ 7
      = (false, ⟨{"row_batch:7"}⟩, Option.none) := by
  have h : ("row_batch:" ++ toString (7:ℤ)) ∈ ({"row_batch:7"} : Finset String) := by
    decide
  exact ⟨h, force_schedule_row_task_batch_noop 5 ⟨{"row_batch:7"}⟩ 7 h⟩

/-- C9: an unregistered strategy name is evaluated with the exact-match
strategy (no failure, no unknown-strategy error), so an unrecognised strategy
with output equal to the expected output after stripping passes. -/
theorem evaluate_output_unknown_strategy_fallback (E : EngineOracles)
    (jsonLoads : String → Except String PyVal)
    (output expected_output strategy : String) (config : EvalConfig)
    (h : strategy ∉ registeredStrategyNames) :
    (evaluate_output E jsonLoads output expected_output strategy config).1
      = (eval_exact_match output expected_output config).1 ∧
    (pyStrip output = pyStrip expected_output →
      (evaluate_output E jsonLoads output expected_output strategy config).1 = true) := by
  simp only [registeredStrategyNames, List.mem_cons, List.not_mem_nil, or_false] at h
  push_neg at h
  obtain ⟨h1, h2, h3, h4, h5, h6, h7, h8, h9, h10, h11, h12, h13, h14, h15⟩ := h
  have hlookup : (eval_strategies E jsonLoads).lookup strategy = Option.none := by
    simp [eval_strategies, List.lookup, beq_eq_false_iff_ne.mpr h1,
      beq_eq_false_iff_ne.mpr h2, beq_eq_false_iff_ne.mpr h3, beq_eq_false_iff_ne.mpr h4,
      beq_eq_false_iff_ne.mpr h5, beq_eq_false_iff_ne.mpr h6, beq_eq_false_iff_ne.mpr h7,
      beq_eq_false_iff_ne.mpr h8, beq_eq_false_iff_ne.mpr h9, beq_eq_false_iff_ne.mpr h10,
      beq_eq_false_iff_ne.mpr h11, beq_eq_false_iff_ne.mpr h12, beq_eq_false_iff_ne.mpr h13,
      beq_eq_false_iff_ne.mpr h14, beq_eq_false_iff_ne.mpr h15]
  constructor
  · simp [evaluate_output, hlookup]
  · intro hstrip
    simp [evaluate_output, hlookup, eval_exact_match, hstrip]

/-- Witness for `evaluate_output_unknown_strategy_fallback` with the strategy
name `bogus`. -/
theorem evaluate_output_unknown_strategy_fallback_witness :
    ("bogus" ∉ registeredStrategyNames) ∧ pyStrip " hi " = pyStrip "hi" ∧
    (evaluate_output trivialOracles trivialJsonLoads " hi " "hi" "bogus" {}).1 = true := by
  refine ⟨by decide, by decide, ?_⟩
  exact (evaluate_output_unknown_strategy_fallback trivialOracles trivialJsonLoads
    " hi " "hi" "bogus" {} (by decide)).2 (by decide)

/-- C10: `_eval_coalesce` prepends the (truthy) output and then the expected
output in place to the list behind `config["values"]`; every other config key
is unchanged, and a second call with the resulting config sees the values
prepended by the first call. -/
theorem eval_coalesce_mutates_config (output expected_output : String)
    (config : EvalConfig) (vs : List PyVal)
    (hv : config.values = some vs) (ho : output ≠ "") (he : expected_output ≠ "") :
    ((eval_coalesce output expected_output config).2.values
        = some (PyVal.str expected_output :: PyVal.str output :: vs)) ∧
    (eval_coalesce output expected_output config).2.ignore_case = config.ignore_case ∧
    (eval_coalesce output expected_output config).2.ignore_whitespace = config.ignore_whitespace ∧
    (eval_coalesce output expected_output config).2.options = config.options ∧
    (eval_coalesce output expected_output config).2.match_pairs = config.match_pairs ∧
    (eval_coalesce output expected_output config).2.vars = config.vars ∧
    ((eval_coalesce output expected_output ((eval_coalesce output expected_output config).2)).2.values
        = some (PyVal.str expected_output :: PyVal.str output ::
                PyVal.str expected_output :: PyVal.str output :: vs)) := by
  have ho' : (output != "") = true := bne_iff_ne.mpr ho
  have he' : (expected_output != "") = true := bne_iff_ne.mpr he
  simp [eval_coalesce, hv, ho', he']

/-- Witness for `eval_coalesce_mutates_config` at concrete strings. -/
theorem eval_coalesce_mutates_config_witness :
    ({ values := some [PyVal.str "z"] } : EvalConfig).values = some [PyVal.str "z"] ∧
    ("a" : String) ≠ "" ∧
    ((eval_coalesce "a" "b" { values := some [PyVal.str "z"] }).2.values
      = some [PyVal.str "b", PyVal.str "a", PyVal.str "z"]) := by
  refine ⟨rfl, by decide, ?_⟩
  exact (eval_coalesce_mutates_config "a" "b" { values := some [PyVal.str "z"] }
    [PyVal.str "z"] rfl (by decide) (by decide)).1

/-- C1: when a row task runs all its columns successfully, the verdict is
decided by the last column in position order: a boolean-producing last column
(`exact_match` / `exact_multi_match` / `contains` / `regex`) yields `passed`
exactly when its recorded value is truthy, any other last column defaults the
row to `passed`. -/
theorem row_verdict_spec (execCol : EvalColumn → Vars → ColumnExecResult)
    (initial_variables : Vars) (columns : List EvalColumn)
    (out : RowExecOutcome)
    (hrun : execute_single_row_task execCol initial_variables columns = out)
    (hok : out.status = RowTaskStatus.completed) :
    ∃ last vars, columns.getLast? = some last ∧
      out.execution_variables = some vars ∧
      (last.column_type ∈ boolColumnTypes →
        out.row_result = some (if pyTruthyOpt (vars.lookup last.name) then
          RowTaskResult.passed else RowTaskResult.unpassed)) ∧
      (last.column_type ∉ boolColumnTypes →
        out.row_result = some RowTaskResult.passed) := by
  cases columns with
  | nil =>
    rw [← hrun] at hok
    simp [execute_single_row_task] at hok
  | cons c rest =>
    subst hrun
    cases hloop : rowLoop execCol initial_variables (c :: rest) with
    | error p =>
      rw [execute_single_row_task, hloop] at hok
      simp at hok
    | ok vars =>
      refine ⟨(c :: rest).getLast (List.cons_ne_nil c rest), vars,
        List.getLast?_eq_getLast_of_ne_nil (List.cons_ne_nil c rest), ?_, ?_, ?_⟩
      · rw [execute_single_row_task, hloop]
        dsimp only
        split <;> rfl
      · intro hmem
        have hcontains : boolColumnTypes.contains
            ((c :: rest).getLast (List.cons_ne_nil c rest)).column_type = true := by
          simp [List.contains, List.elem_iff, hmem]
        rw [execute_single_row_task, hloop]
        dsimp only
        rw [if_pos hcontains]
      · intro hmem
        rw [execute_single_row_task, hloop]
        dsimp only
        simp [hmem]

/-- Witness for `row_verdict_spec`: a pipeline ending in an `exact_match`
column whose value is `True` produces `row_result = passed`. -/
theorem row_verdict_spec_witness :
    (execute_single_row_task execColW [] columnsW).status = RowTaskStatus.completed ∧
    (execute_single_row_task execColW [] columnsW).row_result
      = some RowTaskResult.passed := by
  obtain ⟨last, vars, hlast, hvars, hbool, _⟩ :=
    row_verdict_spec execColW [] columnsW _ rfl (by decide)
  have hlastv : last = ⟨"verdict", "exact_match", 1⟩ := by
    have h0 : columnsW.getLast? = some (⟨"verdict", "exact_match", 1⟩ : EvalColumn) := rfl
    rw [h0] at hlast
    exact (Option.some.inj hlast).symm
  have hvarsv : vars = [("verdict", PyVal.bool true)] := by
    have h0 : (execute_single_row_task execColW [] columnsW).execution_variables
        = some [("verdict", PyVal.bool true)] := rfl
    rw [h0] at hvars
    exact (Option.some.inj hvars).symm
  refine ⟨rfl, ?_⟩
  rw [hbool (by rw [hlastv]; decide)]
  rw [hlastv, hvarsv]
  rfl

/-- C4 (code bug): a running row task swept by `_cleanup_timeout_row_tasks`
reaches the terminal `failed` status with `row_result` still null, violating
the invariant that terminal row tasks carry a verdict. -/
theorem timeout_sweep_row_result_null :
    ((cleanup_timeout_row_tasks 3600 30
        [⟨RowTaskStatus.running, Option.none, some 0, 0, Option.none, Option.none⟩]).map
      (fun t => (t.status, t.row_result, rowTaskIsFinished t)))
      = [(RowTaskStatus.failed, Option.none, true)] := by
  norm_num [cleanup_timeout_row_tasks, isRowTaskReallyInterrupted,
    scheduler_update_row_task_status, rowTaskIsFinished]

/-- C3 (code bug): after the timeout sweep fails a row task without setting
`row_result`, the stats recomputation marks the result `completed` with
`total = 2` but `passed + unpassed + failed = 1`. -/
theorem completed_result_stats_equation_violation :
    (update_eval_result_stats
      (⟨RowTaskStatus.completed, some RowTaskResult.passed, some 0, 100, some 100, Option.none⟩ ::
       cleanup_timeout_row_tasks 3600 30
         [⟨RowTaskStatus.running, Option.none, some 0, 0, Option.none, Option.none⟩])).status
      = "completed" ∧
    (update_eval_result_stats
      (⟨RowTaskStatus.completed, some RowTaskResult.passed, some 0, 100, some 100, Option.none⟩ ::
       cleanup_timeout_row_tasks 3600 30
         [⟨RowTaskStatus.running, Option.none, some 0, 0, Option.none, Option.none⟩])).total_count
      = 2 ∧
    (update_eval_result_stats
      (⟨RowTaskStatus.completed, some RowTaskResult.passed, some 0, 100, some 100, Option.none⟩ ::
       cleanup_timeout_row_tasks 3600 30
         [⟨RowTaskStatus.running, Option.none, some 0, 0, Option.none, Option.none⟩])).passed_count
      = 1 ∧
    (update_eval_result_stats
      (⟨RowTaskStatus.completed, some RowTaskResult.passed, some 0, 100, some 100, Option.none⟩ ::
       cleanup_timeout_row_tasks 3600 30
         [⟨RowTaskStatus.running, Option.none, some 0, 0, Option.none, Option.none⟩])).unpassed_count
      = 0 ∧
    (update_eval_result_stats
      (⟨RowTaskStatus.completed, some RowTaskResult.passed, some 0, 100, some 100, Option.none⟩ ::
       cleanup_timeout_row_tasks 3600 30
         [⟨RowTaskStatus.running, Option.none, some 0, 0, Option.none, Option.none⟩])).failed_count
      = 0 := by
  norm_num [update_eval_result_stats, cleanup_timeout_row_tasks,
    isRowTaskReallyInterrupted, scheduler_update_row_task_status, rowTaskIsFinished]
  decide

/-- C5 counterexample: with zero configured pairs, every configured pair
passes vacuously, yet `_eval_exact_multi_match` returns `False` (it reports
a configuration error), so the stated equivalence fails on the empty
configuration. -/
theorem exact_multi_empty_pairs_counterexample :
    (eval_exact_multi_match trivialJsonLoads "" "" {}).1 = false ∧
    (({} : EvalConfig).match_pairs.all
      (fun p => (pairOutcomeOf trivialJsonLoads {} p).pairPassed)) = true :=
  ⟨rfl, rfl⟩

/-- C5 (amended: at least one pair must be configured): the predicate passes
iff every configured pair passes, and a pair fails whenever its input column
is unconfigured, its expected column is unconfigured (column mode), its fixed
value is unconfigured (fixed mode), or JSON extraction is enabled for a side
whose resolved string fails to parse. -/
theorem exact_multi_match_spec (jsonLoads : String → Except String PyVal)
    (output expected_output : String) (config : EvalConfig)
    (h : config.match_pairs ≠ []) :
    ((eval_exact_multi_match jsonLoads output expected_output config).1 = true ↔
      ∀ pair ∈ config.match_pairs,
        (pairOutcomeOf jsonLoads config pair).pairPassed = true) ∧
    (∀ pair ∈ config.match_pairs,
      (pair.input_column.getD "" = "" →
        (pairOutcomeOf jsonLoads config pair).pairPassed = false) ∧
      (pair.expected_value_type.getD "column" ≠ "fixed_value" →
        pair.expected_column.getD "" = "" →
        (pairOutcomeOf jsonLoads config pair).pairPassed = false) ∧
      (pair.expected_value_type.getD "column" = "fixed_value" →
        pyTruthy (pair.fixed_expected_value.getD (PyVal.str "")) = false →
        pyEqZero (pair.fixed_expected_value.getD (PyVal.str "")) = false →
        (pairOutcomeOf jsonLoads config pair).pairPassed = false) ∧
      (∀ s e, pair.enable_input_json_extraction = true →
        pair.input_json_path.getD "" ≠ "" →
        varGet config.vars (pair.input_column.getD "") (PyVal.str "") = PyVal.str s →
        jsonLoads s = .error e →
        (pairOutcomeOf jsonLoads config pair).pairPassed = false) ∧
      (∀ s e, pair.expected_value_type.getD "column" = "column" →
        pair.enable_expected_json_extraction = true →
        pair.expected_json_path.getD "" ≠ "" →
        varGet config.vars (pair.expected_column.getD "") (PyVal.str "") = PyVal.str s →
        jsonLoads s = .error e →
        (pairOutcomeOf jsonLoads config pair).pairPassed = false)) := by
  constructor
  · have hne : config.match_pairs.isEmpty = false := by
      cases hmp : config.match_pairs
      · exact absurd hmp h
      · rfl
    simp [eval_exact_multi_match, hne, List.all_map, List.all_eq_true, pairOutcomeOf,
      Function.comp]
  · intro pair hmem
    refine ⟨?_, ?_, ?_, ?_, ?_⟩
    · intro h1
      simp [pairOutcomeOf, evalPair, h1, PairOutcome.pairPassed]
    · intro hevt hec
      by_cases h1 : pair.input_column.getD "" = ""
      · simp [pairOutcomeOf, evalPair, h1, PairOutcome.pairPassed]
      · have hres : resolveExpectedValue config.vars pair = .error "期望列配置错误" := by
          simp [resolveExpectedValue, hevt, hec]
        simp [pairOutcomeOf, evalPair, h1, hres, PairOutcome.pairPassed]
    · intro hevt hfal hzero
      by_cases h1 : pair.input_column.getD "" = ""
      · simp [pairOutcomeOf, evalPair, h1, PairOutcome.pairPassed]
      · have hres : resolveExpectedValue config.vars pair = .error "固定期望值未配置" := by
          simp [resolveExpectedValue, hevt, hfal, hzero]
        simp [pairOutcomeOf, evalPair, h1, hres, PairOutcome.pairPassed]
    · intro s e hen hpath hvar hload
      by_cases h1 : pair.input_column.getD "" = ""
      · simp [pairOutcomeOf, evalPair, h1, PairOutcome.pairPassed]
      · cases hres : resolveExpectedValue config.vars pair with
        | error m =>
          simp [pairOutcomeOf, evalPair, h1, hres, PairOutcome.pairPassed]
        | ok ev =>
          have hex : resolveWithExtraction jsonLoads pair.enable_input_json_extraction
              (pair.input_json_path.getD "")
              (varGet config.vars (pair.input_column.getD "") (PyVal.str ""))
              = .error e := by
            simp [resolveWithExtraction, hen, bne_iff_ne.mpr hpath, hvar, hload]
          simp [pairOutcomeOf, evalPair, h1, hres, hex, PairOutcome.pairPassed]
    · intro s e hevt hen hpath hvar hload
      by_cases h1 : pair.input_column.getD "" = ""
      · simp [pairOutcomeOf, evalPair, h1, PairOutcome.pairPassed]
      · by_cases hec : pair.expected_column.getD "" = ""
        · have hres : resolveExpectedValue config.vars pair = .error "期望列配置错误" := by
            simp [resolveExpectedValue, hevt, hec]
          simp [pairOutcomeOf, evalPair, h1, hres, PairOutcome.pairPassed]
        · have hres : resolveExpectedValue config.vars pair = .ok (PyVal.str s) := by
            simp [resolveExpectedValue, hevt, hec, hvar]
          cases hinx : resolveWithExtraction jsonLoads pair.enable_input_json_extraction
              (pair.input_json_path.getD "")
              (varGet config.vars (pair.input_column.getD "") (PyVal.str "")) with
          | error m =>
            simp [pairOutcomeOf, evalPair, h1, hres, hinx, PairOutcome.pairPassed]
          | ok iv =>
            have hex : resolveWithExtraction jsonLoads
                ((pair.expected_value_type.getD "column" == "column")
                  && pair.enable_expected_json_extraction)
                (pair.expected_json_path.getD "") (PyVal.str s) = .error e := by
              simp [resolveWithExtraction, hevt, hen, bne_iff_ne.mpr hpath, hload]
            simp [pairOutcomeOf, evalPair, h1, hres, hinx, hex, PairOutcome.pairPassed]

/-- Witness for `exact_multi_match_spec`: a one-pair configuration whose pair
matches a fixed value. -/
theorem exact_multi_match_spec_witness :
    multiConfigW.match_pairs ≠ [] ∧
    (eval_exact_multi_match trivialJsonLoads "" "" multiConfigW).1 = true := by
  have h := exact_multi_match_spec trivialJsonLoads "" "" multiConfigW
    (by simp [multiConfigW])
  exact ⟨by simp [multiConfigW], h.1.mpr (by decide)⟩

/-! ### List lemmas for the sliding-window argument -/

theorem filter_sublist_filter_of_imp {α : Type} (p q : α → Bool) :
    ∀ (l : List α), (∀ a ∈ l, p a = true → q a = true) →
      List.Sublist (l.filter p) (l.filter q) := by
  intro l
  induction l with
  | nil => intro _; simp
  | cons x xs ih =>
    intro h
    have hrest : ∀ a ∈ xs, p a = true → q a = true := fun a ha => h a (List.mem_cons_of_mem x ha)
    by_cases hp : p x = true
    · have hq := h x (List.mem_cons_self x xs) hp
      rw [List.filter_cons, if_pos hp, List.filter_cons, if_pos hq]
      exact (ih hrest).cons₂ x
    · rw [List.filter_cons, if_neg (by simpa using hp)]
      by_cases hq : q x = true
      · rw [List.filter_cons, if_pos hq]
        exact (ih hrest).cons x
      · rw [List.filter_cons, if_neg (by simpa using hq)]
        exact ih hrest

theorem length_filter_lt_of_mem_strict {α : Type} (p q : α → Bool) :
    ∀ (l : List α) (x : α), x ∈ l → (∀ a ∈ l, p a = true → q a = true) →
      q x = true → p x = false →
      (l.filter p).length < (l.filter q).length := by
  intro l
  induction l with
  | nil => intro x hx; cases hx
  | cons y ys ih =>
    intro x hx h hqx hpx
    have hrest : ∀ a ∈ ys, p a = true → q a = true := fun a ha => h a (List.mem_cons_of_mem y ha)
    rcases List.mem_cons.mp hx with rfl | hx'
    · rw [List.filter_cons, if_neg (by simp [hpx]), List.filter_cons, if_pos hqx]
      have hsub := filter_sublist_filter_of_imp p q ys hrest
      calc (ys.filter p).length ≤ (ys.filter q).length := hsub.length_le
        _ < (x :: ys.filter q).length := by simp
    · by_cases hpy : p y = true
      · have hqy := h y (List.mem_cons_self y ys) hpy
        rw [List.filter_cons, if_pos hpy, List.filter_cons, if_pos hqy]
        simpa using ih x hx' hrest hqx hpx
      · rw [List.filter_cons, if_neg (by simpa using hpy)]
        by_cases hqy : q y = true
        · rw [List.filter_cons, if_pos hqy]
          exact lt_of_lt_of_le (ih x hx' hrest hqx hpx) (by simp)
        · rw [List.filter_cons, if_neg (by simpa using hqy)]
          exact ih x hx' hrest hqx hpx

theorem dropExpired_eq_filter (w t : ℚ) :
    ∀ (l : List ℚ), l.Sorted (· ≤ ·) →
      dropExpired w t l = l.filter (fun s => decide (t - s ≤ w)) := by
  intro l
  induction l with
  | nil => intro _; rfl
  | cons x xs ih =>
    intro hs
    rw [dropExpired]
    by_cases hx : t - x > w
    · rw [if_pos hx, List.filter_cons, if_neg, ih hs.of_cons]
      simp only [decide_eq_true_eq]
      intro hc
      linarith
    · rw [if_neg hx, List.filter_cons, if_pos (decide_eq_true (not_lt.mp hx))]
      have hall : ∀ s ∈ xs, (fun s => decide (t - s ≤ w)) s = true := by
        intro s hsmem
        have hxs : x ≤ s := List.rel_of_sorted_cons hs s hsmem
        have hxw : t - x ≤ w := not_lt.mp hx
        exact decide_eq_true (by linarith)
      rw [List.filter_eq_self.mpr hall]

theorem dropExpired_filter_sync (w t last : ℚ) (T : List ℚ)
    (hsort : T.Sorted (· < ·)) (hlast : last ≤ t) :
    dropExpired w t (T.filter (fun s => decide (last - s ≤ w)))
      = T.filter (fun s => decide (t - s ≤ w)) := by
  have hs2 : (T.filter (fun s => decide (last - s ≤ w))).Sorted (· ≤ ·) :=
    (hsort.filter _).imp le_of_lt
  rw [dropExpired_eq_filter w t _ hs2, List.filter_filter]
  apply List.filter_congr
  intro a ha
  by_cases h : t - a ≤ w
  · have h2 : last - a ≤ w := by linarith
    simp [h, h2]
  · simp [h]

theorem localWindowBound_window (W : ℚ) (C : ℕ) (T : List ℚ)
    (hsort : T.Sorted (· < ·)) (hloc : localWindowBound W C T) (a : ℚ) :
    (T.filter (fun s => decide (a < s ∧ s ≤ a + W))).length ≤ C := by
  by_contra hgt
  push_neg at hgt
  have hFne : T.filter (fun s => decide (a < s ∧ s ≤ a + W)) ≠ [] := by
    intro h
    rw [h] at hgt
    simp at hgt
  obtain ⟨x, F', hxF⟩ := List.exists_cons_of_ne_nil hFne
  have hxmem : x ∈ T.filter (fun s => decide (a < s ∧ s ≤ a + W)) :=
    hxF ▸ List.mem_cons_self x F'
  have hxT : x ∈ T := List.mem_of_mem_filter hxmem
  have hxPb := List.of_mem_filter hxmem
  have hxP : a < x ∧ x ≤ a + W := of_decide_eq_true hxPb
  have hFsort : (T.filter (fun s => decide (a < s ∧ s ≤ a + W))).Sorted (· < ·) :=
    hsort.filter _
  have hF1gt : ∀ s ∈ F', x < s := by
    rw [hxF] at hFsort
    exact fun s hs => List.rel_of_sorted_cons hFsort s hs
  have hF1P : ∀ s ∈ F', (fun s => decide (x < s ∧ s < x + W)) s = true := by
    intro s hs
    have hsF : s ∈ T.filter (fun s => decide (a < s ∧ s ≤ a + W)) :=
      hxF ▸ List.mem_cons_of_mem x hs
    have hsPb := List.of_mem_filter hsF
    have hsP : a < s ∧ s ≤ a + W := of_decide_eq_true hsPb
    exact decide_eq_true ⟨hF1gt s hs, by linarith [hxP.1, hsP.2]⟩
  have hsubT : List.Sublist F' T := by
    have h1 : List.Sublist F' (T.filter (fun s => decide (a < s ∧ s ≤ a + W))) :=
      hxF ▸ List.sublist_cons_self x F'
    exact h1.trans (List.filter_sublist T)
  have hlen : F'.length ≤ (T.filter (fun s => decide (x < s ∧ s < x + W))).length := by
    have heq : F'.filter (fun s => decide (x < s ∧ s < x + W)) = F' :=
      List.filter_eq_self.mpr hF1P
    have hsub2 := hsubT.filter (fun s => decide (x < s ∧ s < x + W))
    rw [heq] at hsub2
    exact hsub2.length_le
  have hfin := hloc x hxT
  have hFlen : (T.filter (fun s => decide (a < s ∧ s ≤ a + W))).length = F'.length + 1 := by
    rw [hxF]
    simp
  omega

theorem window_step (W : ℚ) (C : ℕ)
    (T : List ℚ) (t t1 : ℚ)
    (_hsort : T.Sorted (· < ·))
    (hbnd : ∀ s ∈ T, s < t)
    (ht1 : t ≤ t1)
    (hloc : localWindowBound W C T)
    (htrig : C ≤ (T.filter (fun s => decide (t - s ≤ W))).length →
        ∃ o, (T.filter (fun s => decide (t - s ≤ W))).head? = some o ∧
             (W - (t - o) ≤ 0 ∨ o + W ≤ t1)) :
    (T.filter (fun s => decide (t1 - W < s))).length < C := by
  by_contra hge
  push_neg at hge
  have hsubF : List.Sublist (T.filter (fun s => decide (t1 - W < s)))
      (T.filter (fun s => decide (t - s ≤ W))) := by
    apply filter_sublist_filter_of_imp
    intro a _ hpa
    have h1 : t1 - W < a := of_decide_eq_true hpa
    exact decide_eq_true (by linarith)
  have hlen : C ≤ (T.filter (fun s => decide (t - s ≤ W))).length :=
    le_trans hge hsubF.length_le
  obtain ⟨o, ho, hcase⟩ := htrig hlen
  have homemW : o ∈ T.filter (fun s => decide (t - s ≤ W)) := by
    cases hWdq : T.filter (fun s => decide (t - s ≤ W)) with
    | nil => rw [hWdq] at ho; simp at ho
    | cons z zs =>
      rw [hWdq] at ho
      simp at ho
      rw [ho]
      exact List.mem_cons_self o zs
  have homem : o ∈ T := List.mem_of_mem_filter homemW
  have hoWb := List.of_mem_filter homemW
  have hoW : t - o ≤ W := of_decide_eq_true hoWb
  have hole : o ≤ t1 - W := by
    rcases hcase with h | h
    · linarith
    · linarith
  have hsubF2 : List.Sublist (T.filter (fun s => decide (t1 - W < s)))
      (T.filter (fun s => decide (o < s ∧ s < o + W))) := by
    apply filter_sublist_filter_of_imp
    intro a ha hpa
    have h1 : t1 - W < a := of_decide_eq_true hpa
    have h2 : a < t := hbnd a ha
    exact decide_eq_true ⟨by linarith, by linarith⟩
  have hfin := hloc o homem
  have hcon : (T.filter (fun s => decide (t1 - W < s))).length < C :=
    lt_of_le_of_lt hsubF2.length_le hfin
  omega

theorem localWindowBound_append (W : ℚ) (C : ℕ) (hC : 1 ≤ C)
    (T : List ℚ) (t1 : ℚ)
    (_hsort : T.Sorted (· < ·)) (hbnd : ∀ s ∈ T, s < t1)
    (hloc : localWindowBound W C T)
    (hG : (T.filter (fun s => decide (t1 - W < s))).length < C) :
    localWindowBound W C (T ++ [t1]) := by
  intro x hx
  rw [List.filter_append]
  rcases List.mem_append.mp hx with hxT | hxt
  · by_cases hin : x < t1 ∧ t1 < x + W
    · have hfil1 : ([t1].filter (fun s => decide (x < s ∧ s < x + W))) = [t1] := by
        simp [hin.1, hin.2]
      rw [hfil1]
      have hkey : (T.filter (fun s => decide (x < s ∧ s < x + W))).length
          < (T.filter (fun s => decide (t1 - W < s))).length := by
        apply length_filter_lt_of_mem_strict _ _ T x hxT
        · intro a _ hpa
          have h1 := of_decide_eq_true hpa
          exact decide_eq_true (by linarith [h1.1, hin.2])
        · exact decide_eq_true (by linarith [hin.2])
        · simp
      rw [List.length_append]
      simp only [List.length_cons, List.length_nil]
      omega
    · have hfil1 : ([t1].filter (fun s => decide (x < s ∧ s < x + W))) = [] := by
        have hd : (decide (x < t1 ∧ t1 < x + W)) = false := decide_eq_false hin
        simp only [List.filter, hd]
      rw [hfil1, List.append_nil]
      exact hloc x hxT
  · have hx1 : x = t1 := by simpa using hxt
    subst hx1
    have h2 : (T.filter (fun s => decide (x < s ∧ s < x + W))) = [] := by
      rw [List.filter_eq_nil_iff]
      intro a ha
      have := hbnd a ha
      simp only [decide_eq_true_eq, not_and]
      intro hlt
      linarith
    have h3 : ([x].filter (fun s => decide (x < s ∧ s < x + W))) = [] := by
      simp
    rw [h2, h3]
    simpa using hC

theorem windowWaitTime_spec (C : ℕ) (hC : 1 ≤ C) (W t : ℚ) (Wd : List ℚ) :
    ∃ r, windowWaitTime (C : ℚ) W t Wd = .ok r ∧
      (C ≤ Wd.length → ∃ o, Wd.head? = some o ∧
         ((r = Option.none ∧ W - (t - o) ≤ 0) ∨
          (r = some (W - (t - o)) ∧ 0 < W - (t - o)))) ∧
      (Wd.length < C → r = Option.none) := by
  by_cases hlen : ((Wd.length : ℚ) ≥ (C : ℚ))
  · have hlen' : C ≤ Wd.length := by exact_mod_cast hlen
    cases Wd with
    | nil => simp at hlen'; omega
    | cons o rest =>
      by_cases hw : W - (t - o) > 0
      · refine ⟨some (W - (t - o)), ?_, ?_, ?_⟩
        · unfold windowWaitTime
          rw [if_pos hlen]
          simp only [if_pos hw]
        · intro _
          exact ⟨o, rfl, Or.inr ⟨rfl, hw⟩⟩
        · intro hc
          omega
      · refine ⟨Option.none, ?_, ?_, ?_⟩
        · unfold windowWaitTime
          rw [if_pos hlen]
          simp only [if_neg hw]
        · intro _
          exact ⟨o, rfl, Or.inl ⟨rfl, not_lt.mp hw⟩⟩
        · intro _
          rfl
  · refine ⟨Option.none, ?_, ?_, ?_⟩
    · unfold windowWaitTime
      rw [if_neg hlen]
    · intro hc
      exfalso
      exact hlen (by exact_mod_cast hc)
    · intro _
      rfl

theorem acquire_inv_step (C M : ℕ) (hC : 1 ≤ C) (hM : 1 ≤ M)
    (T : List ℚ) (st : LLMRateLimiter) (last t d : ℚ)
    (hinv : RateLimiterInv C M T st last)
    (ht : last < t) (hd : 0 ≤ d) :
    ∃ a st1, acquire st t d = .ok (a, st1) ∧ last < a ∧
      RateLimiterInv C M (T ++ [a]) st1 a := by
  obtain ⟨hqps, hqpm, hsort, hbnd, hwinS, hwinM, hlocS, hlocM⟩ := hinv
  have hbndt : ∀ s ∈ T, s < t := fun s hs => lt_of_le_of_lt (hbnd s hs) ht
  have hcleanS : dropExpired 1 t st.second_window
      = T.filter (fun s => decide (t - s ≤ 1)) := by
    rw [hwinS]
    exact dropExpired_filter_sync 1 t last T hsort (le_of_lt ht)
  have hcleanM : dropExpired 60 t st.minute_window
      = T.filter (fun s => decide (t - s ≤ 60)) := by
    rw [hwinM]
    exact dropExpired_filter_sync 60 t last T hsort (le_of_lt ht)
  obtain ⟨rS, hrS, hrStrig, hrSsmall⟩ :=
    windowWaitTime_spec C hC 1 t (T.filter (fun s => decide (t - s ≤ 1)))
  obtain ⟨rM, hrM, hrMtrig, hrMsmall⟩ :=
    windowWaitTime_spec M hM 60 t (T.filter (fun s => decide (t - s ≤ 60)))
  have hrSnn : 0 ≤ rS.getD 0 := by
    by_cases hl : C ≤ (T.filter (fun s => decide (t - s ≤ 1))).length
    · obtain ⟨o, _, hdisj⟩ := hrStrig hl
      rcases hdisj with ⟨hr, _⟩ | ⟨hr, hpos⟩
      · rw [hr]; rfl
      · rw [hr]; exact le_of_lt hpos
    · rw [hrSsmall (by omega)]; rfl
  have hrMnn : 0 ≤ rM.getD 0 := by
    by_cases hl : M ≤ (T.filter (fun s => decide (t - s ≤ 60))).length
    · obtain ⟨o, _, hdisj⟩ := hrMtrig hl
      rcases hdisj with ⟨hr, _⟩ | ⟨hr, hpos⟩
      · rw [hr]; rfl
      · rw [hr]; exact le_of_lt hpos
    · rw [hrMsmall (by omega)]; rfl
  have hcalc : calculateWaitTime (cleanupWindows st t) t
      = .ok (max (rS.getD 0) (rM.getD 0)) := by
    unfold calculateWaitTime
    have e1 : (cleanupWindows st t).qps = (C : ℚ) := hqps
    have e2 : (cleanupWindows st t).qpm = (M : ℚ) := hqpm
    have e3 : (cleanupWindows st t).second_window
        = T.filter (fun s => decide (t - s ≤ 1)) := hcleanS
    have e4 : (cleanupWindows st t).minute_window
        = T.filter (fun s => decide (t - s ≤ 60)) := hcleanM
    rw [e1, e2, e3, e4, hrS, hrM]
  set w := max (rS.getD 0) (rM.getD 0) with hw
  have hwnn : 0 ≤ w := le_trans hrSnn (le_max_left _ _)
  by_cases hwpos : w > 0
  case pos =>
    -- sleep case: the admission happens at t + w + d
    set t1 := t + w + d with ht1def
    have htt1 : t ≤ t1 := by rw [ht1def]; linarith
    have hbndt1 : ∀ s ∈ T, s < t1 := fun s hs => lt_of_lt_of_le (hbndt s hs) htt1
    have hclean2S : dropExpired 1 t1 (T.filter (fun s => decide (t - s ≤ 1)))
        = T.filter (fun s => decide (t1 - s ≤ 1)) :=
      dropExpired_filter_sync 1 t1 t T hsort htt1
    have hclean2M : dropExpired 60 t1 (T.filter (fun s => decide (t - s ≤ 60)))
        = T.filter (fun s => decide (t1 - s ≤ 60)) :=
      dropExpired_filter_sync 60 t1 t T hsort htt1
    have hacq : acquire st t d = .ok (t1,
        ⟨st.qps, st.qpm,
         T.filter (fun s => decide (t1 - s ≤ 1)) ++ [t1],
         T.filter (fun s => decide (t1 - s ≤ 60)) ++ [t1]⟩) := by
      unfold acquire
      dsimp only
      rw [hcalc]
      dsimp only
      rw [if_pos hwpos]
      unfold cleanupWindows
      simp only [hcleanS, hcleanM, hclean2S, hclean2M]
    have htrigS : C ≤ (T.filter (fun s => decide (t - s ≤ 1))).length →
        ∃ o, (T.filter (fun s => decide (t - s ≤ 1))).head? = some o ∧
          (1 - (t - o) ≤ 0 ∨ o + 1 ≤ t1) := by
      intro hl
      obtain ⟨o, ho, hdisj⟩ := hrStrig hl
      refine ⟨o, ho, ?_⟩
      rcases hdisj with ⟨_, hle⟩ | ⟨hr, _⟩
      · exact Or.inl hle
      · right
        have : rS.getD 0 = 1 - (t - o) := by rw [hr]; rfl
        have hwge : 1 - (t - o) ≤ w := by
          rw [← this]
          exact le_max_left _ _
        rw [ht1def]
        linarith
    have htrigM : M ≤ (T.filter (fun s => decide (t - s ≤ 60))).length →
        ∃ o, (T.filter (fun s => decide (t - s ≤ 60))).head? = some o ∧
          (60 - (t - o) ≤ 0 ∨ o + 60 ≤ t1) := by
      intro hl
      obtain ⟨o, ho, hdisj⟩ := hrMtrig hl
      refine ⟨o, ho, ?_⟩
      rcases hdisj with ⟨_, hle⟩ | ⟨hr, _⟩
      · exact Or.inl hle
      · right
        have : rM.getD 0 = 60 - (t - o) := by rw [hr]; rfl
        have hwge : 60 - (t - o) ≤ w := by
          rw [← this]
          exact le_max_right _ _
        rw [ht1def]
        linarith
    have hGS := window_step 1 C T t t1 hsort hbndt htt1 hlocS htrigS
    have hGM := window_step 60 M T t t1 hsort hbndt htt1 hlocM htrigM
    refine ⟨t1, _, hacq, lt_of_lt_of_le ht htt1, ?_⟩
    refine ⟨hqps, hqpm, ?_, ?_, ?_, ?_, ?_, ?_⟩
    · exact List.pairwise_append.mpr ⟨hsort, List.pairwise_singleton _ t1, fun a ha b hb => by
        simp at hb
        subst hb
        exact hbndt1 a ha⟩
    · intro s hs
      rcases List.mem_append.mp hs with h | h
      · exact le_of_lt (hbndt1 s h)
      · simp at h
        subst h
        exact le_rfl
    · rw [List.filter_append]
      simp
    · rw [List.filter_append]
      norm_num
    · exact localWindowBound_append 1 C hC T t1 hsort hbndt1 hlocS hGS
    · exact localWindowBound_append 60 M hM T t1 hsort hbndt1 hlocM hGM
  case neg =>
    -- no-sleep case: the admission happens at the call time t
    have hw0 : w = 0 := le_antisymm (not_lt.mp hwpos) hwnn
    have hacq : acquire st t d = .ok (t,
        ⟨st.qps, st.qpm,
         T.filter (fun s => decide (t - s ≤ 1)) ++ [t],
         T.filter (fun s => decide (t - s ≤ 60)) ++ [t]⟩) := by
      unfold acquire
      dsimp only
      rw [hcalc]
      dsimp only
      rw [if_neg hwpos]
      unfold cleanupWindows
      simp only [hcleanS, hcleanM]
    have htrigS : C ≤ (T.filter (fun s => decide (t - s ≤ 1))).length →
        ∃ o, (T.filter (fun s => decide (t - s ≤ 1))).head? = some o ∧
          (1 - (t - o) ≤ 0 ∨ o + 1 ≤ t) := by
      intro hl
      obtain ⟨o, ho, hdisj⟩ := hrStrig hl
      refine ⟨o, ho, ?_⟩
      rcases hdisj with ⟨_, hle⟩ | ⟨hr, hpos⟩
      · exact Or.inl hle
      · exfalso
        have : rS.getD 0 = 1 - (t - o) := by rw [hr]; rfl
        have : 1 - (t - o) ≤ w := by rw [← this]; exact le_max_left _ _
        linarith [hw0]
    have htrigM : M ≤ (T.filter (fun s => decide (t - s ≤ 60))).length →
        ∃ o, (T.filter (fun s => decide (t - s ≤ 60))).head? = some o ∧
          (60 - (t - o) ≤ 0 ∨ o + 60 ≤ t) := by
      intro hl
      obtain ⟨o, ho, hdisj⟩ := hrMtrig hl
      refine ⟨o, ho, ?_⟩
      rcases hdisj with ⟨_, hle⟩ | ⟨hr, hpos⟩
      · exact Or.inl hle
      · exfalso
        have : rM.getD 0 = 60 - (t - o) := by rw [hr]; rfl
        have : 60 - (t - o) ≤ w := by rw [← this]; exact le_max_right _ _
        linarith [hw0]
    have hGS := window_step 1 C T t t hsort hbndt (le_refl t) hlocS htrigS
    have hGM := window_step 60 M T t t hsort hbndt (le_refl t) hlocM htrigM
    refine ⟨t, _, hacq, ht, ?_⟩
    refine ⟨hqps, hqpm, ?_, ?_, ?_, ?_, ?_, ?_⟩
    · exact List.pairwise_append.mpr ⟨hsort, List.pairwise_singleton _ t, fun a ha b hb => by
        simp at hb
        subst hb
        exact hbndt a ha⟩
    · intro s hs
      rcases List.mem_append.mp hs with h | h
      · exact le_of_lt (hbndt s h)
      · simp at h
        subst h
        exact le_rfl
    · rw [List.filter_append]
      simp
    · rw [List.filter_append]
      norm_num
    · exact localWindowBound_append 1 C hC T t hsort hbndt hlocS hGS
    · exact localWindowBound_append 60 M hM T t hsort hbndt hlocM hGM

theorem runAcquires_inv (C M : ℕ) (hC : 1 ≤ C) (hM : 1 ≤ M) :
    ∀ (sched : List (ℚ × ℚ)) (T : List ℚ) (st : LLMRateLimiter) (last : ℚ),
      RateLimiterInv C M T st last → ValidSched st last sched →
      ∃ A stf last1, runAcquires st sched = .ok (A, stf) ∧
        RateLimiterInv C M (T ++ A) stf last1 := by
  intro sched
  induction sched with
  | nil =>
    intro T st last hinv _
    exact ⟨[], st, last, rfl, by simpa using hinv⟩
  | cons td rest ih =>
    obtain ⟨t, d⟩ := td
    intro T st last hinv hvalid
    obtain ⟨hlt, hd, hnext⟩ := hvalid
    obtain ⟨a, st1, hacq, hlast, hinv1⟩ :=
      acquire_inv_step C M hC hM T st last t d hinv hlt hd
    obtain ⟨A, stf, last1, hrun, hinvf⟩ :=
      ih (T ++ [a]) st1 a hinv1 (hnext a st1 hacq)
    refine ⟨a :: A, stf, last1, ?_, ?_⟩
    · rw [runAcquires, hacq]
      dsimp only
      rw [hrun]
    · simpa [List.append_assoc] using hinvf

/-- C2 (amended): with integer capacities `qps = C ≥ 1`, `qpm = M ≥ 1` and a
strictly advancing clock (each call is made strictly after the previous
admission), any half-open window of one second contains at most `C`
admissions, and any half-open window of sixty seconds at most `M`.
The as-stated claim fails at the exact window boundary (see the
counterexample): the queues can transiently exceed their capacities and a
closed 1-second window can contain `C + 1` admissions. -/
theorem rate_limiter_window_bound (C M : ℕ) (hC : 1 ≤ C) (hM : 1 ≤ M)
    (last0 : ℚ) (sched : List (ℚ × ℚ)) (A : List ℚ) (stf : LLMRateLimiter)
    (hvalid : ValidSched (initRateLimiter (C : ℚ) (M : ℚ)) last0 sched)
    (hrun : runAcquires (initRateLimiter (C : ℚ) (M : ℚ)) sched = .ok (A, stf)) :
    (∀ a : ℚ, (A.filter (fun s => decide (a < s ∧ s ≤ a + 1))).length ≤ C) ∧
    (∀ a : ℚ, (A.filter (fun s => decide (a < s ∧ s ≤ a + 60))).length ≤ M) := by
  have hinv0 : RateLimiterInv C M [] (initRateLimiter (C : ℚ) (M : ℚ)) last0 := by
    refine ⟨rfl, rfl, List.sorted_nil, ?_, rfl, rfl, ?_, ?_⟩
    · intro s hs
      cases hs
    · intro x hx
      cases hx
    · intro x hx
      cases hx
  obtain ⟨A1, stf1, last1, hrun1, hinvf⟩ :=
    runAcquires_inv C M hC hM sched [] (initRateLimiter (C : ℚ) (M : ℚ)) last0 hinv0 hvalid
  rw [hrun] at hrun1
  have hA1 : A1 = A := by
    injection hrun1 with h2
    exact congrArg Prod.fst h2.symm
  subst hA1
  simp only [List.nil_append] at hinvf
  exact ⟨fun a => localWindowBound_window 1 C A1 hinvf.sorted hinvf.localS a,
    fun a => localWindowBound_window 60 M A1 hinvf.sorted hinvf.localM a⟩

/-- C2 counterexample: with `qps = 1, qpm = 60`, calls at times `0` and
exactly `1.0` both admit immediately (the second call finds the oldest entry
exactly one second old, which the strict-inequality cleanup retains while the
wait computation yields `0`), so the second window holds `2 > qps` recorded
timestamps and the closed one-second window `[0, 1]` contains two
admissions. -/
theorem rate_limiter_capacity_counterexample :
    runAcquires (initRateLimiter 1 60) [(0, 0), (1, 0)] =
      .ok ([0, 1],
        { qps := 1, qpm := 60, second_window := [0, 1], minute_window := [0, 1] }) ∧
    1 < ({ qps := 1, qpm := 60, second_window := [0, 1],
           minute_window := [0, 1] : LLMRateLimiter }).second_window.length ∧
    (([0, 1] : List ℚ).filter (fun s => decide ((0:ℚ) ≤ s ∧ s ≤ 0 + 1))).length = 2 := by
  refine ⟨?_, by norm_num, by norm_num⟩
  norm_num [runAcquires, acquire, initRateLimiter, cleanupWindows, dropExpired,
    calculateWaitTime, windowWaitTime]

/-- Witness for `rate_limiter_window_bound` on a one-call schedule. -/
theorem rate_limiter_window_bound_witness :
    (([1] : List ℚ).filter (fun s => decide ((0:ℚ) < s ∧ s ≤ 0 + 1))).length ≤ 1 := by
  have hvalid : ValidSched (initRateLimiter ((1:ℕ) : ℚ) ((1:ℕ) : ℚ)) 0 [(1, 0)] := by
    refine ⟨by norm_num, le_refl 0, ?_⟩
    intro a st1 _
    trivial
  have hrun : runAcquires (initRateLimiter ((1:ℕ) : ℚ) ((1:ℕ) : ℚ)) [(1, 0)]
      = .ok ([1], ⟨((1:ℕ) : ℚ), ((1:ℕ) : ℚ), [1], [1]⟩) := by
    norm_num [runAcquires, acquire, initRateLimiter, cleanupWindows, dropExpired,
      calculateWaitTime, windowWaitTime]
  exact (rate_limiter_window_bound 1 1 le_rfl le_rfl 0 [(1, 0)] [1] _ hvalid hrun).1 0

/-- Supporting fact for the stats roll-up: whenever every row task carries a
verdict, the three buckets partition the total, so
`total = passed + unpassed + failed` holds.  The timeout sweep is the only
terminal path that breaks the premise. -/
theorem stats_buckets_partition (row_tasks : List EvalResultRowTaskRec)
    (h : ∀ t ∈ row_tasks, t.row_result ≠ Option.none) :
    (update_eval_result_stats row_tasks).total_count
      = (update_eval_result_stats row_tasks).passed_count
        + (update_eval_result_stats row_tasks).unpassed_count
        + (update_eval_result_stats row_tasks).failed_count := by
  simp only [update_eval_result_stats]
  induction row_tasks with
  | nil => rfl
  | cons t ts ih =>
    have hts : ∀ x ∈ ts, x.row_result ≠ Option.none :=
      fun x hx => h x (List.mem_cons_of_mem t hx)
    have ht := h t (List.mem_cons_self t ts)
    have iht := ih hts
    rw [List.length_cons, List.filter_cons, List.filter_cons, List.filter_cons]
    rcases hr : t.row_result with _ | r
    · exact absurd hr ht
    · cases r <;> simp [hr] <;> omega

/-- Supporting fact for the terminal-verdict invariant: the row executor's
own terminal writes always set `row_result`, whatever the dispatcher does. -/
theorem executor_terminal_row_result_set
    (execCol : EvalColumn → Vars → ColumnExecResult)
    (initial_variables : Vars) (columns : List EvalColumn) :
    (execute_single_row_task execCol initial_variables columns).row_result
      ≠ Option.none := by
  cases columns with
  | nil => simp [execute_single_row_task]
  | cons c rest =>
    cases hloop : rowLoop execCol initial_variables (c :: rest) with
    | error p =>
      obtain ⟨msg, vs⟩ := p
      rw [execute_single_row_task, hloop]
      simp
    | ok vars =>
      rw [execute_single_row_task, hloop]
      dsimp only
      split <;> simp
